import Mathlib

/-!
Verification of the OpenFOAM residual-plotting application
(`streamlit_app.py` plus the residual log parser it calls).

The application code (`main`, `create_altair_plot`, `create_matplotlib_plot`,
`process_files`) is embedded from `streamlit_app.py`.  The parser
`pre_parse` and the helper `order_of_magnitude` live in the external
`openfoam_residuals` package whose source is not part of this repository;
they are modelled from the specification (section 4.1 of the design
document), as noted in their doc comments.

Numeric residual values are modelled as exact rationals (`ℚ`); a missing
cell (pandas `NaN`) is modelled as `none : Option ℚ`.
-/

namespace OpenFOAMResiduals

/-- A whitespace-delimited token of a residual log line: either a numeric
field (carrying its value) or a non-numeric symbol such as `#` or a column
name. -/
inductive Token where
  | num (q : ℚ)
  | sym (s : String)
deriving DecidableEq, Repr

/-- Interpret a token as a column-name symbol. -/
def Token.asSym : Token → Option String
  | Token.sym s => some s
  | Token.num _ => none

/-- Interpret a token as a numeric field. -/
def Token.asNum : Token → Option ℚ
  | Token.num q => some q
  | Token.sym _ => none

/-- One line of the log, already split on whitespace. -/
abbrev Line := List Token

/-- The raw log content: a list of lines. -/
abbrev Content := List Line

/-- A parsed table: a named row index (the iteration counter) together with
named columns of optional (possibly missing) rational values.  This models
the pandas `DataFrame` returned by the parser. -/
structure Table where
  indexName : String
  index : List ℚ
  cols : List (String × List (Option ℚ))
deriving DecidableEq, Repr

/-- Map a fallible function over a list, failing if any element fails
(the `Option` traversal used by the parser model). -/
def optMap {α β : Type} (f : α → Option β) : List α → Option (List β)
  | [] => some []
  | a :: l =>
    match f a, optMap f l with
    | some b, some bs => some (b :: bs)
    | _, _ => none

/-- Parse one data row: it must have exactly `width` whitespace-delimited
numeric fields. -/
def parseDataRow (width : Nat) (l : Line) : Option (List ℚ) :=
  if l.length = width then optMap Token.asNum l else none

/-- Columns of the realigned table: the `j`-th field name (counting from the
position `start`) receives the data values read one position to its left,
i.e. column name number `start + j` holds raw data position `start + j - 1`.
`mkCols rows start names` pairs each name with the data column at its own
position (the shift is expressed by which `start` the caller passes). -/
def mkCols (rows : List (List ℚ)) : Nat → List String → List (String × List (Option ℚ))
  | _, [] => []
  | j, nm :: nms => (nm, rows.map fun r => r[j]?) :: mkCols rows (j + 1) nms

/-- Drop the first row of a table (index entry and the head of every
column). -/
def dropFirstRow (t : Table) : Table :=
  ⟨t.indexName, t.index.drop 1, t.cols.map fun c => (c.1, c.2.drop 1)⟩

/-- Drop every column that has no non-missing value. -/
def dropEmptyCols (t : Table) : Table :=
  ⟨t.indexName, t.index, t.cols.filter fun c => c.2.any Option.isSome⟩

/-- Modelled from the spec: the residual log parser
`openfoam_residuals.filesystem.pre_parse`, whose source is not part of this
repository.  Following section 4.1 of the specification it
1. skips the first line (header comment);
2. treats the first remaining line as the field-name row, which must be
   symbols starting with the `#` marker (`#`, `Time`, field names…);
3. realigns the columns by one position: the data read under each label is
   attributed to the label one position to the right, so data position `0`
   (read under `#`) becomes the iteration values, position `j + 1` becomes
   field number `j`, and the `#` column is left entirely empty;
4. sets the row index to the iteration column, absorbing the spurious
   `Time` label as the index name so no `Time` column remains;
5. drops the first resulting row and every entirely-empty column.
Each data row must consist of exactly `fieldNames.length + 1` numeric
fields; any malformed input yields `none` (a parse error).  It returns the
table together with its iteration index, as the Python function returns
`(table, index)`. -/
def pre_parse (c : Content) : Option (Table × List ℚ) :=
  match c with
  | _hdr :: nameLine :: dataLines =>
    match optMap Token.asSym nameLine with
    | some ("#" :: timeName :: fieldNames) =>
      match optMap (parseDataRow (fieldNames.length + 1)) dataLines with
      | some rows =>
        let t0 : Table :=
          ⟨timeName, rows.map List.headI,
            ("#", rows.map fun _ => (none : Option ℚ)) :: mkCols rows 1 fieldNames⟩
        let t := dropEmptyCols (dropFirstRow t0)
        some (t, t.index)
      | none => none
    | _ => none
  | _ => none

/-- The value of column `nm` at (0-based) row `i` of a table, `none` when
the column or the cell is absent. -/
def colVal (t : Table) (nm : String) (i : Nat) : Option ℚ :=
  match t.cols.lookup nm with
  | some vs => (vs[i]?).join
  | none => none

/-- Build a log from a header-comment line, a name line and numeric data
rows. -/
def mkLog (hdr : Line) (nameLine : Line) (rows : List (List ℚ)) : Content :=
  hdr :: nameLine :: rows.map fun r => r.map Token.num

/-- The canonical field-name row observed in residual logs:
`# Time Ux Uy Uz p epsilon k`. -/
def canonNameLine : Line :=
  [Token.sym "#", Token.sym "Time", Token.sym "Ux", Token.sym "Uy",
   Token.sym "Uz", Token.sym "p", Token.sym "epsilon", Token.sym "k"]

/-- The table a well-formed log parses to (closed form of `pre_parse` on
well-formed input, used to state the evaluation lemma). -/
def parsedTable (timeName : String) (fieldNames : List String)
    (rows : List (List ℚ)) : Table :=
  dropEmptyCols (dropFirstRow
    ⟨timeName, rows.map List.headI,
      ("#", rows.map fun _ => (none : Option ℚ)) :: mkCols rows 1 fieldNames⟩)

/-- Structural well-formedness of a residual log, written directly from the
input constraints of specification section 4.1: at least two lines, the
second line made of symbols and starting with the `#` marker followed by at
least the `Time` label, and every data line holding exactly one fewer
numeric field than the name line has labels. -/
def wellFormedLog (c : Content) : Bool :=
  match c with
  | _ :: nameLine :: dataLines =>
    match optMap Token.asSym nameLine with
    | some (h :: _ :: _) =>
      h = "#" &&
        dataLines.all fun l =>
          l.length + 1 = nameLine.length &&
            l.all fun tk => (Token.asNum tk).isSome
    | _ => false
  | _ => false

/-- Modelled from the spec: `openfoam_residuals.plot.order_of_magnitude`,
whose source is not part of this repository; the specification defines it
as `order_of_magnitude(x) = floor(log10(x))` for positive non-zero `x`.
On positive rationals `Int.log 10` is exactly that floor (proved below). -/
def order_of_magnitude (x : ℚ) : ℤ := Int.log 10 x

/-- The columns `create_altair_plot` melts for charting
(`streamlit_app.py`, `value_vars`). -/
def value_vars : List String := ["Ux", "Uy", "Uz", "p", "epsilon", "k"]

/-- One row of the long-format frame produced by `melt`: the `Time`
identifier, the residual (field) name, and the value. -/
structure MeltedRow where
  time : ℚ
  residual : String
  value : Option ℚ
deriving DecidableEq, Repr

/-- The long-format melt of a table against its index, restricted to
`value_vars` (pandas `melt` with `id_vars=['Time']`). -/
def meltTable (t : Table) : List MeltedRow :=
  (value_vars.map fun nm =>
    match t.cols.lookup nm with
    | some vs => (t.index.zip vs).map fun p => ⟨p.1, nm, p.2⟩
    | none => []).flatten

/-- `create_altair_plot` from `streamlit_app.py`: resets the index (whose
name is `Time`) and melts the six residual columns into long format for the
chart.  Pandas raises if a requested column is absent, modelled by
`none`. -/
def create_altair_plot (t : Table) : Option (List MeltedRow) :=
  if value_vars.all fun nm => (t.cols.lookup nm).isSome then
    some (meltTable t)
  else none

/-- The raw-data tab of `main` (`st.dataframe(data)`): it shows the parsed
table unchanged. -/
def rawDataView (t : Table) : Table := t

/-- The relevant state of the Matplotlib figure built by
`create_matplotlib_plot`: figure size, plotted data, and the axis limits. -/
structure Figure where
  figwidth : ℚ
  figheight : ℚ
  lines : Table
  ylim : ℚ × ℚ
  xlim : ℚ × ℚ
deriving DecidableEq, Repr

/-- `create_matplotlib_plot` from `streamlit_app.py`: plots the data with a
log y-axis, sets `ylim = (min_residual, 1)` and `xlim = (0, max_iter)`. -/
def create_matplotlib_plot (data : Table) (width height : ℚ)
    (min_residual : ℚ) (max_iter : ℚ) : Figure :=
  ⟨width, height, data, (min_residual, 1), (0, max_iter)⟩

/-- All non-missing values of a table, column by column (the values the
pandas `data.min().min()` reduction ranges over, `NaN` skipped). -/
def tableValues (t : Table) : List ℚ :=
  (t.cols.map fun c => c.2.filterMap id).flatten

/-- Minimum of a list of rationals, `none` on the empty list (pandas `min`
over a Series). -/
def listMin : List ℚ → Option ℚ
  | [] => none
  | a :: l =>
    match listMin l with
    | none => some a
    | some m => some (min a m)

/-- Maximum of a list of rationals, `none` on the empty list (pandas
`Index.max`). -/
def listMax : List ℚ → Option ℚ
  | [] => none
  | a :: l =>
    match listMax l with
    | none => some a
    | some m => some (max a m)

/-- The Matplotlib branch of `main` for one parsed table: it computes
`min_residual = 10 ** order_of_magnitude(data.min().min())` and
`max_iter = data.index.max()` and builds the figure
(`streamlit_app.py`, Matplotlib tab).  On an empty table the pandas
reductions have no value, modelled by `none`. -/
def mainMatplotlibFigure (t : Table) (width height : ℚ) : Option Figure :=
  match listMin (tableValues t), listMax t.index with
  | some m, some mi =>
      some (create_matplotlib_plot t width height
        ((10 : ℚ) ^ order_of_magnitude m) mi)
  | _, _ => none

/-- How many times one rendering pass of `main` invokes `pre_parse` for
`numFiles` uploaded files: once per file in the Altair tab, once per file
in the Matplotlib tab, and once per file in the raw-data tab
(`streamlit_app.py`, the three `for item in processed_files` loops each
calling `fs.pre_parse(item['path'])`). -/
def parseCallsPerPass (numFiles : Nat) : Nat :=
  numFiles + numFiles + numFiles

/-- An uploaded file: its name and its content (`file.getvalue()`). -/
structure UploadedFile where
  name : String
  content : Content

/-- `process_files` from `streamlit_app.py`: its body only creates the
empty `processed_files` list and returns it; no file is saved and no entry
is recorded. -/
def process_files (_files : List UploadedFile) : List (String × String) :=
  ([] : List (String × String))

/-- The file entries `main` itself builds inline: for each uploaded file it
writes the content to `temp_dir / file.name` and records
`{'name': file.name, 'path': temp_file_path}` (`streamlit_app.py`, the
loop over `files` inside the `TemporaryDirectory` block). -/
def mainSavedFiles (tempDir : String) (files : List UploadedFile) :
    List (String × String) :=
  files.map fun f => (f.name, tempDir ++ "/" ++ f.name)

/-- Reading a path from a file system (a map from paths to contents) and
parsing it, as `fs.pre_parse(item['path'])` does: the result is a function
of the content stored at the path, and the file system is not modified. -/
def parseAtPath (fsys : String → Option Content) (p : String) :
    Option (Table × List ℚ) :=
  match fsys p with
  | some c => pre_parse c
  | none => none

/-- Example data rows (three iterations of seven numeric fields) used to
instantiate the universally quantified theorems below. -/
def exRows : List (List ℚ) :=
  [[1, 1/1000, 1/10000, 1/100000, 1/1000000, 1/10000000, 1/100000000],
   [2, 1/2000, 1/20000, 1/200000, 1/2000000, 1/20000000, 1/200000000],
   [3, 1/4000, 1/40000, 1/400000, 1/4000000, 1/40000000, 1/400000000]]

/-- Example header-comment line. -/
def exHdr : Line := [Token.sym "Residuals"]

/-- A small concrete parsed table used to instantiate theorems with
hypotheses. -/
def exTable : Table :=
  ⟨"Time", [2, 3], [("Ux", [some (1/2), some (1/4)])]⟩

/-- A malformed log: the field-name row lacks the leading `#` marker. -/
def exBadLog : Content :=
  mkLog exHdr [Token.sym "Time", Token.sym "Ux"] exRows

/-- An example file system holding the same well-formed log at every
path. -/
def exFS : String → Option Content :=
  fun _ => some (mkLog exHdr canonNameLine exRows)

/-- The parsed table of the canonical example log (used to instantiate the
chart-layer theorem). -/
def exSixTable : Table :=
  parsedTable "Time" ["Ux", "Uy", "Uz", "p", "epsilon", "k"] exRows

/-- The figure `main` builds for `exTable` with default sidebar sizes. -/
def exFig : Figure :=
  create_matplotlib_plot exTable 10 4 ((10 : ℚ) ^ order_of_magnitude (1/4)) 3

end OpenFOAMResiduals

namespace OpenFOAMResiduals

/-! ### Helper lemmas about the parser model -/

theorem optMap_asSym_map_sym (l : List String) :
    optMap Token.asSym (l.map Token.sym) = some l := by
  induction l with
  | nil => rfl
  | cons a l ih => simp [optMap, Token.asSym, ih]

theorem optMap_asNum_map_num (r : List ℚ) :
    optMap Token.asNum (r.map Token.num) = some r := by
  induction r with
  | nil => rfl
  | cons a r ih => simp [optMap, Token.asNum, ih]

theorem optMap_parseDataRow (w : Nat) (rows : List (List ℚ))
    (h : ∀ r ∈ rows, r.length = w) :
    optMap (parseDataRow w) (rows.map fun r => r.map Token.num) = some rows := by
  induction rows with
  | nil => rfl
  | cons r rows ih =>
    have hr : r.length = w := h r (by simp)
    simp [optMap, parseDataRow, hr, optMap_asNum_map_num,
      ih fun r' hr' => h r' (by simp [hr'])]

theorem optMap_length {α β : Type} {f : α → Option β} :
    ∀ {l : List α} {y : List β}, optMap f l = some y → y.length = l.length := by
  intro l
  induction l with
  | nil => intro y h; simp [optMap] at h; simp [← h]
  | cons a l ih =>
    intro y h
    rw [optMap] at h
    cases hfa : f a with
    | none => rw [hfa] at h; simp at h
    | some b =>
      rw [hfa] at h
      cases hl : optMap f l with
      | none => rw [hl] at h; simp at h
      | some bs =>
        rw [hl] at h
        simp at h
        simp [← h, ih hl]

theorem optMap_mem_isSome {α β : Type} {f : α → Option β} :
    ∀ {l : List α} {y : List β}, optMap f l = some y →
      ∀ a ∈ l, (f a).isSome = true := by
  intro l
  induction l with
  | nil => intro y _ a ha; simp at ha
  | cons a l ih =>
    intro y h a' ha'
    rw [optMap] at h
    cases hfa : f a with
    | none => rw [hfa] at h; simp at h
    | some b =>
      rw [hfa] at h
      cases hl : optMap f l with
      | none => rw [hl] at h; simp at h
      | some bs =>
        rcases List.mem_cons.mp ha' with rfl | hmem
        · simp [hfa]
        · exact ih hl a' hmem

theorem pre_parse_eval (hdr : Line) (timeName : String) (fieldNames : List String)
    (rows : List (List ℚ)) (hw : ∀ r ∈ rows, r.length = fieldNames.length + 1) :
    pre_parse (mkLog hdr
        (Token.sym "#" :: Token.sym timeName :: fieldNames.map Token.sym) rows)
      = some (parsedTable timeName fieldNames rows,
              (parsedTable timeName fieldNames rows).index) := by
  simp [pre_parse, mkLog, optMap, Token.asSym, optMap_asSym_map_sym,
    optMap_parseDataRow _ _ hw, parsedTable]

end OpenFOAMResiduals

namespace OpenFOAMResiduals

theorem mkCols_map_fst (rows : List (List ℚ)) :
    ∀ (j : Nat) (nms : List String), (mkCols rows j nms).map Prod.fst = nms := by
  intro j nms
  induction nms generalizing j with
  | nil => rfl
  | cons a l ih => simp [mkCols, ih]

theorem mkCols_snd_length (rows : List (List ℚ)) :
    ∀ (j : Nat) (nms : List String), ∀ c ∈ mkCols rows j nms,
      c.2.length = rows.length := by
  intro j nms
  induction nms generalizing j with
  | nil => intro c hc; simp [mkCols] at hc
  | cons a l ih =>
    intro c hc
    rcases List.mem_cons.mp hc with rfl | hc'
    · simp
    · exact ih (j + 1) c hc'

theorem hash_col_empty (rows : List (List ℚ)) :
    ((rows.map fun _ => (none : Option ℚ)).drop 1).any Option.isSome = false := by
  rw [List.any_eq_false]
  intro x hx
  have hx' : x ∈ rows.map fun _ => (none : Option ℚ) :=
    List.drop_subset 1 _ hx
  obtain ⟨_, _, rfl⟩ := List.mem_map.mp hx'
  simp

theorem field_col_any (rows : List (List ℚ)) (w j : Nat)
    (hw : ∀ r ∈ rows, r.length = w) (hj : j < w) (h2 : 2 ≤ rows.length) :
    ((rows.map fun r => r[j]?).drop 1).any Option.isSome = true := by
  match rows, h2 with
  | r0 :: r1 :: rest, _ =>
    have h1 : j < r1.length := by rw [hw r1 (by simp)]; exact hj
    simp [List.any_cons, List.getElem?_eq_getElem h1]

theorem mkCols_filter (rows : List (List ℚ)) (w : Nat)
    (hw : ∀ r ∈ rows, r.length = w) (h2 : 2 ≤ rows.length) :
    ∀ (nms : List String) (j : Nat), j + nms.length ≤ w →
    ((mkCols rows j nms).map fun c => (c.1, c.2.drop 1)).filter
        (fun c => c.2.any Option.isSome)
      = (mkCols rows j nms).map fun c => (c.1, c.2.drop 1) := by
  intro nms
  induction nms with
  | nil => intro j _; rfl
  | cons a l ih =>
    intro j h
    simp only [List.length_cons] at h
    have hj : j < w := by omega
    have hcol := field_col_any rows w j hw hj h2
    simp only [mkCols, List.map_cons, List.filter_cons, hcol, if_true,
      ih (j + 1) (by omega)]

theorem parsedTable_index (timeName : String) (fieldNames : List String)
    (rows : List (List ℚ)) :
    (parsedTable timeName fieldNames rows).index
      = (rows.map List.headI).drop 1 := rfl

theorem parsedTable_indexName (timeName : String) (fieldNames : List String)
    (rows : List (List ℚ)) :
    (parsedTable timeName fieldNames rows).indexName = timeName := rfl

theorem parsedTable_cols (timeName : String) (fieldNames : List String)
    (rows : List (List ℚ))
    (hw : ∀ r ∈ rows, r.length = fieldNames.length + 1)
    (h2 : 2 ≤ rows.length) :
    (parsedTable timeName fieldNames rows).cols
      = (mkCols rows 1 fieldNames).map fun c => (c.1, c.2.drop 1) := by
  have hfilter :=
    mkCols_filter rows (fieldNames.length + 1) hw h2 fieldNames 1 (by omega)
  have hhash := hash_col_empty rows
  simp only [parsedTable, dropFirstRow, dropEmptyCols, List.map_cons,
    List.filter_cons, hhash, Bool.false_eq_true, if_false]
  exact hfilter

theorem index_pos_of_pairwise (iter : List ℚ)
    (hp : List.Pairwise (· < ·) iter)
    (h0 : ∀ v0, iter.head? = some v0 → 0 ≤ v0) :
    ∀ v ∈ iter.drop 1, 0 < v := by
  match iter with
  | [] => intro v hv; simp at hv
  | a :: rest =>
    intro v hv
    simp only [List.drop_succ_cons, List.drop_zero] at hv
    have ha : (0 : ℚ) ≤ a := h0 a rfl
    have hav : a < v := (List.pairwise_cons.mp hp).1 v hv
    linarith

end OpenFOAMResiduals

namespace OpenFOAMResiduals

theorem listMin_eq_none : ∀ {l : List ℚ}, listMin l = none → l = [] := by
  intro l h
  match l with
  | [] => rfl
  | a :: l' =>
    rw [listMin] at h
    cases hl : listMin l' with
    | none => rw [hl] at h; simp at h
    | some m => rw [hl] at h; simp at h

theorem listMin_mem : ∀ {l : List ℚ} {m : ℚ}, listMin l = some m → m ∈ l := by
  intro l
  induction l with
  | nil => intro m h; simp [listMin] at h
  | cons a l ih =>
    intro m h
    rw [listMin] at h
    cases hl : listMin l with
    | none =>
      rw [hl] at h
      simp only [Option.some.injEq] at h
      rw [← h]; exact List.mem_cons_self a l
    | some m' =>
      rw [hl] at h
      simp only [Option.some.injEq] at h
      rcases min_choice a m' with hc | hc
      · rw [← h, hc]; exact List.mem_cons_self a l
      · rw [← h, hc]; exact List.mem_cons_of_mem a (ih hl)

theorem listMin_le : ∀ {l : List ℚ} {m : ℚ}, listMin l = some m →
    ∀ v ∈ l, m ≤ v := by
  intro l
  induction l with
  | nil => intro m h; simp [listMin] at h
  | cons a l ih =>
    intro m h v hv
    rw [listMin] at h
    cases hl : listMin l with
    | none =>
      rw [hl] at h
      simp only [Option.some.injEq] at h
      have : l = [] := listMin_eq_none hl
      subst this
      rcases List.mem_cons.mp hv with rfl | hv'
      · rw [← h]
      · simp at hv'
    | some m' =>
      rw [hl] at h
      simp only [Option.some.injEq] at h
      rcases List.mem_cons.mp hv with rfl | hv'
      · rw [← h]; exact min_le_left _ _
      · rw [← h]; exact le_trans (min_le_right _ _) (ih hl v hv')

theorem listMax_ge : ∀ {l : List ℚ} {m : ℚ}, listMax l = some m →
    ∀ v ∈ l, v ≤ m := by
  intro l
  induction l with
  | nil => intro m h; simp [listMax] at h
  | cons a l ih =>
    intro m h v hv
    rw [listMax] at h
    cases hl : listMax l with
    | none =>
      rw [hl] at h
      simp only [Option.some.injEq] at h
      have hnil : l = [] := by
        match l with
        | [] => rfl
        | b :: l' =>
          rw [listMax] at hl
          cases hb : listMax l' with
          | none => rw [hb] at hl; simp at hl
          | some mm => rw [hb] at hl; simp at hl
      subst hnil
      rcases List.mem_cons.mp hv with rfl | hv'
      · rw [← h]
      · simp at hv'
    | some m' =>
      rw [hl] at h
      simp only [Option.some.injEq] at h
      rcases List.mem_cons.mp hv with rfl | hv'
      · rw [← h]; exact le_max_left _ _
      · rw [← h]; exact le_trans (ih hl v hv') (le_max_right _ _)

theorem meltTable_mem {t : Table} {e : MeltedRow} (he : e ∈ meltTable t) :
    e.residual ∈ value_vars ∧ e.time ∈ t.index := by
  simp only [meltTable, List.mem_flatten, List.mem_map] at he
  obtain ⟨l', ⟨nm, hnm, rfl⟩, hel⟩ := he
  cases hlk : t.cols.lookup nm with
  | none => rw [hlk] at hel; simp at hel
  | some vs =>
    rw [hlk] at hel
    obtain ⟨p, hp, rfl⟩ := List.mem_map.mp hel
    obtain ⟨p1, p2⟩ := p
    exact ⟨hnm, (List.of_mem_zip hp).1⟩

theorem parseDataRow_isSome {w : Nat} {l : Line}
    (h : (parseDataRow w l).isSome = true) :
    l.length = w ∧ ∃ y, optMap Token.asNum l = some y := by
  by_cases hl : l.length = w
  · refine ⟨hl, ?_⟩
    rw [parseDataRow, if_pos hl] at h
    exact Option.isSome_iff_exists.mp h
  · rw [parseDataRow, if_neg hl] at h
    simp at h

end OpenFOAMResiduals

namespace OpenFOAMResiduals

theorem pre_parse_some_wellFormed {c : Content} {x : Table × List ℚ}
    (h : pre_parse c = some x) : wellFormedLog c = true := by
  unfold pre_parse at h
  split at h
  · rename_i hdr nameLine dataLines
    split at h
    · rename_i timeName fieldNames heq
      split at h
      · rename_i rows hrows
        have hlen : ("#" :: timeName :: fieldNames).length = nameLine.length :=
          optMap_length heq
        rw [wellFormedLog, heq]
        simp only [List.length_cons] at hlen
        simp only [Bool.and_eq_true, decide_eq_true_eq, List.all_eq_true]
        refine ⟨trivial, ?_⟩
        intro l hl
        have hsome : (parseDataRow (fieldNames.length + 1) l).isSome = true :=
          optMap_mem_isSome hrows l hl
        obtain ⟨hlw, y, hy⟩ := parseDataRow_isSome hsome
        refine ⟨by omega, ?_⟩
        intro tk htk
        exact optMap_mem_isSome hy tk htk
      · exact absurd h (by simp)
    · exact absurd h (by simp)
  · exact absurd h (by simp)

theorem order_of_magnitude_eq_floor (x : ℚ) (hx : 0 < x) :
    order_of_magnitude x = ⌊Real.logb 10 (x : ℝ)⌋ := by
  have hx' : (0 : ℝ) < (x : ℝ) := by exact_mod_cast hx
  have hb : (1 : ℕ) < 10 := by norm_num
  have h1 : ⌊Real.logb ((10 : ℕ) : ℝ) (x : ℝ)⌋ = Int.log 10 ((x : ℝ)) :=
    Real.floor_logb_natCast hx'.le
  have h2 : ((10 : ℕ) : ℝ) = (10 : ℝ) := by norm_num
  rw [h2] at h1
  rw [order_of_magnitude, h1]
  have hcast : ∀ z : ℤ, (((10 : ℚ) ^ z : ℚ) : ℝ) = (10 : ℝ) ^ z := fun z => by
    have h := map_zpow₀ (Rat.castHom ℝ) (10 : ℚ) z
    simp only [Rat.coe_castHom] at h
    rw [h]
    norm_num
  apply le_antisymm
  · have hle : (10 : ℚ) ^ Int.log 10 x ≤ x := by
      exact_mod_cast Int.zpow_log_le_self hb hx
    have hleR : (10 : ℝ) ^ Int.log 10 x ≤ ((x : ℚ) : ℝ) := by
      rw [← hcast]; exact_mod_cast hle
    apply (Int.zpow_le_iff_le_log hb hx').mp
    exact_mod_cast hleR
  · have hlt : x < (10 : ℚ) ^ (Int.log 10 x + 1) := by
      exact_mod_cast Int.lt_zpow_succ_log_self hb x
    have hltR : ((x : ℚ) : ℝ) < (10 : ℝ) ^ (Int.log 10 x + 1) := by
      rw [← hcast]; exact_mod_cast hlt
    have hfl : Int.log 10 ((x : ℝ)) < Int.log 10 x + 1 := by
      apply (Int.lt_zpow_iff_log_lt hb hx').mp
      exact_mod_cast hltR
    omega

end OpenFOAMResiduals

namespace OpenFOAMResiduals

/-- C3: for every positive non-zero `x`, `order_of_magnitude x` equals
`⌊log₁₀ x⌋`; in particular `order_of_magnitude 1e-4 = -4` and
`order_of_magnitude 5e-3 = -3`. -/
theorem C3_order_of_magnitude_is_floor_log10 :
    (∀ x : ℚ, 0 < x → order_of_magnitude x = ⌊Real.logb 10 (x : ℝ)⌋)
      ∧ order_of_magnitude (1 / 10000) = -4
      ∧ order_of_magnitude (5 / 1000) = -3 := by
  have hb : (1 : ℕ) < 10 := by norm_num
  have h10 : ((10 : ℕ) : ℚ) = (10 : ℚ) := by norm_num
  refine ⟨order_of_magnitude_eq_floor, ?_, ?_⟩
  · have h := Int.log_zpow (R := ℚ) hb (-4)
    rw [order_of_magnitude, show ((1 : ℚ) / 10000) = ((10 : ℕ) : ℚ) ^ (-4 : ℤ) by
      rw [h10]; norm_num]
    exact h
  · have hr : (0 : ℚ) < 5 / 1000 := by norm_num
    have hle : ((10 : ℕ) : ℚ) ^ (-3 : ℤ) ≤ 5 / 1000 := by rw [h10]; norm_num
    have hlt : (5 : ℚ) / 1000 < ((10 : ℕ) : ℚ) ^ (-3 + 1 : ℤ) := by
      rw [h10]; norm_num
    have h1 : (-3 : ℤ) ≤ Int.log 10 ((5 : ℚ) / 1000) :=
      (Int.zpow_le_iff_le_log hb hr).mp hle
    have h2 : Int.log 10 ((5 : ℚ) / 1000) < -3 + 1 :=
      (Int.lt_zpow_iff_log_lt hb hr).mp hlt
    rw [order_of_magnitude]
    omega

/-- Witness for C3 -/
theorem C3_witness :
    (0 : ℚ) < 5 / 1000 ∧
      order_of_magnitude (5 / 1000) = ⌊Real.logb 10 ((5 / 1000 : ℚ) : ℝ)⌋ :=
  ⟨by norm_num,
    C3_order_of_magnitude_is_floor_log10.1 (5 / 1000) (by norm_num)⟩

end OpenFOAMResiduals

namespace OpenFOAMResiduals

/-- C4 counterexample: already with a single uploaded file, one rendering
pass of `main` invokes the parser three times (once in each of the Altair,
Matplotlib and raw-data tab loops), so a file's content is not parsed at
most once per rendering pass as a memoization layer would guarantee. -/
theorem C4_counterexample :
    parseCallsPerPass 1 = 3 ∧ ¬ parseCallsPerPass 1 ≤ 1 := by
  decide

/-- C4 (amended): `main` has no memoization layer; each uploaded file is
re-parsed by every tab, so one rendering pass invokes `pre_parse` exactly
three times per uploaded file. -/
theorem C4_no_memoization_three_parses_per_file :
    ∀ numFiles : Nat, parseCallsPerPass numFiles = 3 * numFiles := by
  intro n
  rw [parseCallsPerPass]
  omega

/-- C5: under the precondition that the parsed residual table holds only
positive values, the argument `data.min().min()` that `main` passes to
`order_of_magnitude` is itself positive, so the call site never reaches the
undefined zero/negative domain. -/
theorem C5_order_of_magnitude_arg_positive (t : Table) (m : ℚ)
    (hpos : ∀ v ∈ tableValues t, 0 < v)
    (hmin : listMin (tableValues t) = some m) : 0 < m :=
  hpos m (listMin_mem hmin)

/-- Witness for C5 at the concrete table `exTable`. -/
theorem C5_witness :
    (∀ v ∈ tableValues exTable, 0 < v) ∧
      listMin (tableValues exTable) = some (1 / 4) ∧ (0 : ℚ) < 1 / 4 := by
  have hvals : tableValues exTable = [1 / 2, 1 / 4] := by
    simp [tableValues, exTable]
  have hpos : ∀ v ∈ tableValues exTable, 0 < v := by
    rw [hvals]
    intro v hv
    rcases List.mem_cons.mp hv with rfl | hv'
    · norm_num
    · rcases List.mem_cons.mp hv' with rfl | hv''
      · norm_num
      · simp at hv''
  have hmin : listMin (tableValues exTable) = some (1 / 4) := by
    rw [hvals, listMin, listMin, listMin]
    norm_num [min_def]
  exact ⟨hpos, hmin,
    C5_order_of_magnitude_arg_positive exTable (1 / 4) hpos hmin⟩

/-- C6: any malformed input — fewer than two lines, a name row missing the
`#` marker or containing non-symbol tokens, a data row whose field count
differs from the header's, or a non-numeric data field — makes `pre_parse`
fail with a parse error (`none`); it never silently returns a partial or
misaligned table. -/
theorem C6_malformed_input_fails (c : Content)
    (h : wellFormedLog c = false) : pre_parse c = none := by
  cases hp : pre_parse c with
  | none => rfl
  | some x =>
    have ht := pre_parse_some_wellFormed hp
    rw [ht] at h
    exact absurd h (by simp)

/-- Witness for C6 at a concrete log whose name row lacks the `#`
marker. -/
theorem C6_witness :
    wellFormedLog exBadLog = false ∧ pre_parse exBadLog = none :=
  ⟨rfl, C6_malformed_input_fails exBadLog rfl⟩

/-- C8: `pre_parse` is a pure deterministic transform: the result of
parsing a path depends only on the content stored there, so any two reads
of equal content yield identical tables and identical iteration
indexes. -/
theorem C8_pre_parse_deterministic (fs1 fs2 : String → Option Content)
    (p1 p2 : String) (h : fs1 p1 = fs2 p2) :
    parseAtPath fs1 p1 = parseAtPath fs2 p2 := by
  rw [parseAtPath, parseAtPath, h]

/-- Witness for C8: the same log parsed at two different paths. -/
theorem C8_witness :
    exFS "case1/residuals.dat" = exFS "case2/residuals.dat" ∧
      parseAtPath exFS "case1/residuals.dat"
        = parseAtPath exFS "case2/residuals.dat" :=
  ⟨rfl, C8_pre_parse_deterministic exFS exFS "case1/residuals.dat"
    "case2/residuals.dat" rfl⟩

/-- C10: `process_files` returns the empty list for every input list of
uploaded files and records no file entry; the actual saving of uploaded
files is done inline by `main`, whose loop records one entry per uploaded
file in the temporary directory. -/
theorem C10_process_files_returns_empty (files : List UploadedFile)
    (tempDir : String) :
    process_files files = [] ∧
      (mainSavedFiles tempDir files).length = files.length :=
  ⟨rfl, List.length_map files _⟩

end OpenFOAMResiduals

namespace OpenFOAMResiduals

/-- C7: the interactive chart layer melts exactly the six columns
`Ux, Uy, Uz, p, epsilon, k` against the `Time` index: every melted entry
carries one of those six residual names and a time taken from the index,
a column outside the six never appears in the melted chart data, and the
raw-data view shows the full table unchanged. -/
theorem C7_chart_layer_consumes_value_vars (t : Table) (l : List MeltedRow)
    (h : create_altair_plot t = some l) :
    (∀ e ∈ l, e.residual ∈ value_vars ∧ e.time ∈ t.index) ∧
      (∀ nm, nm ∉ value_vars → ∀ e ∈ l, e.residual ≠ nm) ∧
      rawDataView t = t := by
  have hl : l = meltTable t := by
    unfold create_altair_plot at h
    split at h
    · exact (Option.some_inj.mp h).symm
    · exact absurd h (by simp)
  subst hl
  refine ⟨fun e he => meltTable_mem he, ?_, rfl⟩
  intro nm hnm e he hres
  exact hnm (hres ▸ (meltTable_mem he).1)

/-- Witness for C7 at the parsed canonical example table. -/
theorem C7_witness :
    create_altair_plot exSixTable = some (meltTable exSixTable) ∧
      ∀ e ∈ meltTable exSixTable,
        e.residual ∈ value_vars ∧ e.time ∈ exSixTable.index := by
  have hc : create_altair_plot exSixTable = some (meltTable exSixTable) := by
    rfl
  exact ⟨hc,
    (C7_chart_layer_consumes_value_vars exSixTable (meltTable exSixTable) hc).1⟩

end OpenFOAMResiduals

namespace OpenFOAMResiduals

theorem ten_zpow_cast (z : ℤ) :
    (((10 : ℚ) ^ z : ℚ) : ℝ) = (10 : ℝ) ^ z := by
  have h := map_zpow₀ (Rat.castHom ℝ) (10 : ℚ) z
  simp only [Rat.coe_castHom] at h
  rw [h]
  norm_num

/-- C9: for a parsed table of positive values, the Matplotlib figure
`main` builds has y-limits `[10 ^ ⌊log₁₀ (min value)⌋, 1]` — a lower bound
of every value in the table — and x-limits `[0, max iteration index]`. -/
theorem C9_matplotlib_axis_limits (t : Table) (w h : ℚ) (f : Figure)
    (hpos : ∀ v ∈ tableValues t, 0 < v)
    (hf : mainMatplotlibFigure t w h = some f) :
    (∃ m, listMin (tableValues t) = some m ∧
        f.ylim = ((10 : ℚ) ^ order_of_magnitude m, 1) ∧
        ((f.ylim.1 : ℝ) = (10 : ℝ) ^ ⌊Real.logb 10 ((m : ℚ) : ℝ)⌋)) ∧
      (∃ mi, listMax t.index = some mi ∧ f.xlim = (0, mi) ∧
        ∀ v ∈ t.index, v ≤ mi) ∧
      (∀ v ∈ tableValues t, f.ylim.1 ≤ v) := by
  unfold mainMatplotlibFigure at hf
  cases hm : listMin (tableValues t) with
  | none => rw [hm] at hf; simp at hf
  | some m =>
    cases hmi : listMax t.index with
    | none => rw [hm, hmi] at hf; simp at hf
    | some mi =>
      rw [hm, hmi] at hf
      simp only [Option.some.injEq] at hf
      subst hf
      have hmpos : 0 < m := hpos m (listMin_mem hm)
      refine ⟨⟨m, rfl, rfl, ?_⟩, ⟨mi, rfl, rfl, listMax_ge hmi⟩, ?_⟩
      · show (((10 : ℚ) ^ order_of_magnitude m : ℚ) : ℝ) = _
        rw [ten_zpow_cast, order_of_magnitude_eq_floor m hmpos]
      · intro v hv
        show (10 : ℚ) ^ order_of_magnitude m ≤ v
        have h1 : (10 : ℚ) ^ order_of_magnitude m ≤ m := by
          rw [order_of_magnitude]
          exact_mod_cast Int.zpow_log_le_self (by norm_num) hmpos
        exact le_trans h1 (listMin_le hm v hv)

end OpenFOAMResiduals

namespace OpenFOAMResiduals

/-- Witness for C9 at the concrete table `exTable` with the default
sidebar figure size. -/
theorem C9_witness :
    (∀ v ∈ tableValues exTable, 0 < v) ∧
      mainMatplotlibFigure exTable 10 4 = some exFig ∧
      ((∃ m, listMin (tableValues exTable) = some m ∧
          exFig.ylim = ((10 : ℚ) ^ order_of_magnitude m, 1) ∧
          ((exFig.ylim.1 : ℝ) = (10 : ℝ) ^ ⌊Real.logb 10 ((m : ℚ) : ℝ)⌋)) ∧
        (∃ mi, listMax exTable.index = some mi ∧ exFig.xlim = (0, mi) ∧
          ∀ v ∈ exTable.index, v ≤ mi) ∧
        (∀ v ∈ tableValues exTable, exFig.ylim.1 ≤ v)) := by
  have hvals : tableValues exTable = [1 / 2, 1 / 4] := by
    simp [tableValues, exTable]
  have hpos : ∀ v ∈ tableValues exTable, 0 < v := by
    rw [hvals]
    intro v hv
    rcases List.mem_cons.mp hv with rfl | hv'
    · norm_num
    · rcases List.mem_cons.mp hv' with rfl | hv''
      · norm_num
      · simp at hv''
  have hmin : listMin (tableValues exTable) = some (1 / 4) := by
    rw [hvals, listMin, listMin, listMin]
    norm_num [min_def]
  have hmax : listMax exTable.index = some 3 := by
    show listMax [2, 3] = some 3
    rw [listMax, listMax, listMax]
    norm_num [max_def]
  have hf : mainMatplotlibFigure exTable 10 4 = some exFig := by
    unfold mainMatplotlibFigure
    rw [hmin, hmax]
    rfl
  exact ⟨hpos, hf, C9_matplotlib_axis_limits exTable 10 4 exFig hpos hf⟩

end OpenFOAMResiduals

namespace OpenFOAMResiduals

/-- C2: for every well-formed log with `N` data rows, `pre_parse` returns
a table with `N - 1` rows (the first row is dropped) whose index equals the
iteration column values after the drop — unique, strictly increasing and
positive when the iteration counter is strictly increasing from a
non-negative start — and whose columns all have at least one non-missing
value (entirely empty columns are excluded) and are exactly the header's
field names when at least one row remains. -/
theorem C2_parsed_table_shape (hdr : Line) (timeName : String)
    (fieldNames : List String) (rows : List (List ℚ))
    (hw : ∀ r ∈ rows, r.length = fieldNames.length + 1)
    (hmono : List.Pairwise (· < ·) (rows.map List.headI))
    (h0 : ∀ v0, (rows.map List.headI).head? = some v0 → 0 ≤ v0) :
    ∃ t : Table,
      pre_parse (mkLog hdr
          (Token.sym "#" :: Token.sym timeName :: fieldNames.map Token.sym)
          rows) = some (t, t.index) ∧
      t.index.length = rows.length - 1 ∧
      t.index = (rows.map List.headI).drop 1 ∧
      List.Pairwise (· < ·) t.index ∧
      t.index.Nodup ∧
      (∀ v ∈ t.index, 0 < v) ∧
      (∀ c ∈ t.cols, c.2.any Option.isSome = true ∧
        c.2.length = rows.length - 1) ∧
      (2 ≤ rows.length → t.cols.map Prod.fst = fieldNames) := by
  refine ⟨parsedTable timeName fieldNames rows,
    pre_parse_eval hdr timeName fieldNames rows hw, ?_, ?_, ?_, ?_, ?_, ?_, ?_⟩
  · rw [parsedTable_index]
    simp [List.length_drop]
  · exact parsedTable_index timeName fieldNames rows
  · rw [parsedTable_index]
    exact hmono.sublist (List.drop_sublist 1 _)
  · rw [parsedTable_index]
    exact (hmono.sublist (List.drop_sublist 1 _)).imp ne_of_lt
  · rw [parsedTable_index]
    exact index_pos_of_pairwise _ hmono h0
  · intro c hc
    have hc' : c ∈ ((("#", rows.map fun _ => (none : Option ℚ)) ::
        mkCols rows 1 fieldNames).map fun c => (c.1, c.2.drop 1)).filter
          (fun c => c.2.any Option.isSome) := hc
    have hmf := List.mem_filter.mp hc'
    refine ⟨hmf.2, ?_⟩
    obtain ⟨c0, hc0, rfl⟩ := List.mem_map.mp hmf.1
    rcases List.mem_cons.mp hc0 with rfl | hc0'
    · simp [List.length_drop]
    · have hlen := mkCols_snd_length rows 1 fieldNames c0 hc0'
      simp [List.length_drop, hlen]
  · intro h2
    rw [parsedTable_cols timeName fieldNames rows hw h2, List.map_map]
    have hcomp : (Prod.fst ∘ fun c : String × List (Option ℚ) =>
        (c.1, c.2.drop 1)) = Prod.fst := rfl
    rw [hcomp, mkCols_map_fst]

end OpenFOAMResiduals

namespace OpenFOAMResiduals

theorem colVal_of_lookup {t : Table} {nm : String} {vs : List (Option ℚ)}
    (h : t.cols.lookup nm = some vs) (i : Nat) :
    colVal t nm i = (vs[i]?).join := by
  unfold colVal
  rw [h]

theorem shifted_cell (rows : List (List ℚ)) (i : Nat) (r : List ℚ)
    (hri : rows[i + 1]? = some r) (j : Nat) :
    (((rows.map fun rr => rr[j]?).drop 1)[i]?).join = r[j]? := by
  rw [List.getElem?_drop, List.getElem?_map,
    show 1 + i = i + 1 from Nat.add_comm 1 i, hri]
  rfl

/-- C1: for every well-formed log with header `Time Ux Uy Uz p epsilon k`,
the parser realigns the columns by one position: each data value is
attributed to the field name one position to the right of the label it was
read under (the value read under `Time` appears under `Ux`, …, the value
read under `epsilon` appears under `k`, and the value read under `#` — the
iteration counter — becomes the index), and no column named `Time` appears
in the final table. -/
theorem C1_column_shift_drops_time (hdr : Line) (rows : List (List ℚ))
    (hw : ∀ r ∈ rows, r.length = 7) (h2 : 2 ≤ rows.length) :
    ∃ t : Table,
      pre_parse (mkLog hdr canonNameLine rows) = some (t, t.index) ∧
      t.cols.map Prod.fst = ["Ux", "Uy", "Uz", "p", "epsilon", "k"] ∧
      "Time" ∉ t.cols.map Prod.fst ∧
      t.indexName = "Time" ∧
      ∀ i r, rows[i + 1]? = some r →
        t.index[i]? = some r.headI ∧
        colVal t "Ux" i = r[1]? ∧ colVal t "Uy" i = r[2]? ∧
        colVal t "Uz" i = r[3]? ∧ colVal t "p" i = r[4]? ∧
        colVal t "epsilon" i = r[5]? ∧ colVal t "k" i = r[6]? := by
  have hw' : ∀ r ∈ rows, r.length =
      (["Ux", "Uy", "Uz", "p", "epsilon", "k"] : List String).length + 1 := hw
  have hcanon : canonNameLine = Token.sym "#" :: Token.sym "Time" ::
      (["Ux", "Uy", "Uz", "p", "epsilon", "k"].map Token.sym) := rfl
  have hc := parsedTable_cols "Time" ["Ux", "Uy", "Uz", "p", "epsilon", "k"]
    rows hw' h2
  have hfst : (parsedTable "Time" ["Ux", "Uy", "Uz", "p", "epsilon", "k"]
      rows).cols.map Prod.fst = ["Ux", "Uy", "Uz", "p", "epsilon", "k"] := by
    rw [hc, List.map_map]
    have hcomp : (Prod.fst ∘ fun c : String × List (Option ℚ) =>
        (c.1, c.2.drop 1)) = Prod.fst := rfl
    rw [hcomp, mkCols_map_fst]
  have hUx : (parsedTable "Time" ["Ux", "Uy", "Uz", "p", "epsilon", "k"]
      rows).cols.lookup "Ux" = some ((rows.map fun rr => rr[1]?).drop 1) := by
    rw [hc]; rfl
  have hUy : (parsedTable "Time" ["Ux", "Uy", "Uz", "p", "epsilon", "k"]
      rows).cols.lookup "Uy" = some ((rows.map fun rr => rr[2]?).drop 1) := by
    rw [hc]; rfl
  have hUz : (parsedTable "Time" ["Ux", "Uy", "Uz", "p", "epsilon", "k"]
      rows).cols.lookup "Uz" = some ((rows.map fun rr => rr[3]?).drop 1) := by
    rw [hc]; rfl
  have hp : (parsedTable "Time" ["Ux", "Uy", "Uz", "p", "epsilon", "k"]
      rows).cols.lookup "p" = some ((rows.map fun rr => rr[4]?).drop 1) := by
    rw [hc]; rfl
  have heps : (parsedTable "Time" ["Ux", "Uy", "Uz", "p", "epsilon", "k"]
      rows).cols.lookup "epsilon"
        = some ((rows.map fun rr => rr[5]?).drop 1) := by
    rw [hc]; rfl
  have hk : (parsedTable "Time" ["Ux", "Uy", "Uz", "p", "epsilon", "k"]
      rows).cols.lookup "k" = some ((rows.map fun rr => rr[6]?).drop 1) := by
    rw [hc]; rfl
  refine ⟨parsedTable "Time" ["Ux", "Uy", "Uz", "p", "epsilon", "k"] rows,
    ?_, hfst, ?_, rfl, ?_⟩
  · rw [hcanon]
    exact pre_parse_eval hdr "Time" _ rows hw'
  · rw [hfst]
    decide
  · intro i r hri
    refine ⟨?_, ?_, ?_, ?_, ?_, ?_, ?_⟩
    · rw [parsedTable_index, List.getElem?_drop, List.getElem?_map,
        show 1 + i = i + 1 from Nat.add_comm 1 i, hri]
      rfl
    · rw [colVal_of_lookup hUx i]; exact shifted_cell rows i r hri 1
    · rw [colVal_of_lookup hUy i]; exact shifted_cell rows i r hri 2
    · rw [colVal_of_lookup hUz i]; exact shifted_cell rows i r hri 3
    · rw [colVal_of_lookup hp i]; exact shifted_cell rows i r hri 4
    · rw [colVal_of_lookup heps i]; exact shifted_cell rows i r hri 5
    · rw [colVal_of_lookup hk i]; exact shifted_cell rows i r hri 6

end OpenFOAMResiduals

namespace OpenFOAMResiduals

/-- Witness for C1 at the concrete example log. -/
theorem C1_witness :
    (∀ r ∈ exRows, r.length = 7) ∧ 2 ≤ exRows.length ∧
      (∃ t : Table,
        pre_parse (mkLog exHdr canonNameLine exRows) = some (t, t.index) ∧
        t.cols.map Prod.fst = ["Ux", "Uy", "Uz", "p", "epsilon", "k"] ∧
        "Time" ∉ t.cols.map Prod.fst ∧
        t.indexName = "Time" ∧
        ∀ i r, exRows[i + 1]? = some r →
          t.index[i]? = some r.headI ∧
          colVal t "Ux" i = r[1]? ∧ colVal t "Uy" i = r[2]? ∧
          colVal t "Uz" i = r[3]? ∧ colVal t "p" i = r[4]? ∧
          colVal t "epsilon" i = r[5]? ∧ colVal t "k" i = r[6]?) := by
  have hw : ∀ r ∈ exRows, r.length = 7 := by
    intro r hr
    simp only [exRows, List.mem_cons, List.not_mem_nil, or_false] at hr
    rcases hr with rfl | rfl | rfl <;> rfl
  have h2 : 2 ≤ exRows.length := by decide
  exact ⟨hw, h2, C1_column_shift_drops_time exHdr exRows hw h2⟩

/-- Witness for C2 at the concrete example log. -/
theorem C2_witness :
    (∀ r ∈ exRows,
        r.length = (["Ux", "Uy", "Uz", "p", "epsilon", "k"] : List String).length + 1) ∧
      List.Pairwise (· < ·) (exRows.map List.headI) ∧
      (∃ t : Table,
        pre_parse (mkLog exHdr
            (Token.sym "#" :: Token.sym "Time" ::
              (["Ux", "Uy", "Uz", "p", "epsilon", "k"].map Token.sym))
            exRows) = some (t, t.index) ∧
        t.index.length = exRows.length - 1 ∧
        t.index = (exRows.map List.headI).drop 1 ∧
        List.Pairwise (· < ·) t.index ∧
        t.index.Nodup ∧
        (∀ v ∈ t.index, 0 < v) ∧
        (∀ c ∈ t.cols, c.2.any Option.isSome = true ∧
          c.2.length = exRows.length - 1) ∧
        (2 ≤ exRows.length →
          t.cols.map Prod.fst = ["Ux", "Uy", "Uz", "p", "epsilon", "k"])) := by
  have hw : ∀ r ∈ exRows,
      r.length = (["Ux", "Uy", "Uz", "p", "epsilon", "k"] : List String).length + 1 := by
    intro r hr
    simp only [exRows, List.mem_cons, List.not_mem_nil, or_false] at hr
    rcases hr with rfl | rfl | rfl <;> rfl
  have hmap : exRows.map List.headI = [1, 2, 3] := rfl
  have hmono : List.Pairwise (· < ·) (exRows.map List.headI) := by
    rw [hmap]
    norm_num [List.pairwise_cons]
  have h0 : ∀ v0, (exRows.map List.headI).head? = some v0 → 0 ≤ v0 := by
    intro v0 hv
    rw [hmap] at hv
    simp only [List.head?_cons, Option.some.injEq] at hv
    rw [← hv]
    norm_num
  exact ⟨hw, hmono,
    C2_parsed_table_shape exHdr "Time" ["Ux", "Uy", "Uz", "p", "epsilon", "k"]
      exRows hw hmono h0⟩

end OpenFOAMResiduals
